import Mathlib

set_option maxRecDepth 8000

/-!
Shallow embedding of the amaze maze/graph library (src/types.rs,
src/graph/mod.rs, src/graph/four_way_grid.rs).

Conventions of the embedding:
* the compile-time grid size `WIDTH` (8, 16 or 32, selected by a cargo
  feature) is a parameter `w : Nat`;
* `u8` casts (`as u8`) are modelled as `% 256` on the mathematical value;
* `i16`/`i8`/`i32` values stay well inside their ranges everywhere the
  program reaches, so they are modelled as `Int` (no wrap);
* a Rust `panic!` / `.unwrap()` on an error value is modelled by `Option`:
  `none` means the call panics;
* the "strict" build (cargo feature `debug`, validation enabled) and the
  "fast" build (validation skipped) are modelled by separate definitions
  with the suffix `Strict` for the former.
-/

/-- Direction from src/types.rs (`enum Direction`). -/
inductive Direction where
  | North
  | East
  | South
  | West
deriving DecidableEq, Repr

/-- Rust `Direction::inverted` (src/types.rs lines 36-47). -/
def Direction.inverted : Direction → Direction
  | .North => .South
  | .East => .West
  | .South => .North
  | .West => .East

/-- Rust `impl From<Direction> for VectorXY` (src/types.rs lines 146-157). -/
def dirVec : Direction → Int × Int
  | .North => (0, 1)
  | .East => (1, 0)
  | .South => (0, -1)
  | .West => (-1, 0)

/-- Rust `impl TryFrom<VectorXY> for Direction` (src/types.rs lines 48-61):
only the four unit cardinal vectors convert, anything else is
`Err(InvalidVector)` (modelled as `none`). -/
def dirOfVec (v : Int × Int) : Option Direction :=
  if v = (0, 1) then some .North
  else if v = (1, 0) then some .East
  else if v = (0, -1) then some .South
  else if v = (-1, 0) then some .West
  else none

/-- Error kinds from src/types.rs (`enum Error`). -/
inductive Error where
  | OutOfRange
  | InvalidLocation
  | InvalidDirection
  | InvalidVector
deriving DecidableEq, Repr

/-- Cell from src/types.rs (`#[bitfield] struct Cell`): four wall flags and
four check flags, one per direction. -/
structure Cell where
  north : Bool
  east : Bool
  south : Bool
  west : Bool
  check_north : Bool
  check_east : Bool
  check_south : Bool
  check_west : Bool
deriving DecidableEq, Repr

/-- Rust `Cell::new()`: the bitfield starts all-zero. -/
def Cell.empty : Cell :=
  ⟨false, false, false, false, false, false, false, false⟩

/-- Rust `Cell::state_by_direction` (src/types.rs lines 188-196). -/
def Cell.state (c : Cell) : Direction → Bool
  | .North => c.north
  | .East => c.east
  | .South => c.south
  | .West => c.west

/-- Rust `Cell::set_state_by_direction` (src/types.rs lines 206-214). -/
def Cell.setState (c : Cell) : Direction → Bool → Cell
  | .North, v => { c with north := v }
  | .East, v => { c with east := v }
  | .South, v => { c with south := v }
  | .West, v => { c with west := v }

/-- Rust `impl Add<VectorXY> for CoordXY` (src/types.rs lines 115-130): the
result coordinates are the `u8` casts of the `i16` sums, accepted only when
the sums are non-negative and the casts are `≤ Coord1D::MAX = w - 1`. -/
def coordAdd (w : Nat) (c : Nat × Nat) (v : Int × Int) : Option (Nat × Nat) :=
  let nx : Int := (c.1 : Int) + v.1
  let ny : Int := (c.2 : Int) + v.2
  if 0 ≤ nx ∧ 0 ≤ ny ∧ nx.toNat % 256 ≤ w - 1 ∧ ny.toNat % 256 ≤ w - 1 then
    some (nx.toNat % 256, ny.toNat % 256)
  else
    none

/-- Rust `impl Sub<CoordXY> for CoordXY` (src/types.rs lines 131-139),
yielding a signed displacement vector. -/
def coordSub (a b : Nat × Nat) : Int × Int :=
  ((a.1 : Int) - (b.1 : Int), (a.2 : Int) - (b.2 : Int))

/-- Maze from src/types.rs: start/goal coordinates plus the row-major cell
array (`data[x + y*WIDTH]`), modelled as a total function on indices. -/
structure Maze where
  start : Nat × Nat
  goal : Nat × Nat
  data : Nat → Cell

/-- Update the cell array at one index. -/
def updAt (d : Nat → Cell) (j : Nat) (f : Cell → Cell) : Nat → Cell :=
  fun i => if i = j then f (d i) else d i

/-- Rust `Maze::cell` / `Maze::cell_by_x_y` (src/types.rs lines 294-302). -/
def Maze.cell (w : Nat) (m : Maze) (c : Nat × Nat) : Cell :=
  m.data (c.1 + c.2 * w)

/-- Rust `Maze::set_cell_state` (src/types.rs lines 312-319): set the wall
flag at `c` in direction `d`, and, when `c + d` is in range, the inverted
flag on that neighbour; when out of range the second write is skipped. -/
def Maze.setCellState (w : Nat) (m : Maze) (c : Nat × Nat) (d : Direction)
    (v : Bool) : Maze :=
  let m1 : Maze :=
    { m with data := updAt m.data (c.1 + c.2 * w) (fun cl => cl.setState d v) }
  match coordAdd w c (dirVec d) with
  | some c2 =>
      { m1 with
        data := updAt m1.data (c2.1 + c2.2 * w)
          (fun cl => cl.setState d.inverted v) }
  | none => m1

/-- First boundary loop of `Maze::new` (src/types.rs lines 236-239): after
`n` iterations, `data[x].south` and `data[x + w*(w-1)].north` are set for
all `x < n`. -/
def mazeNewLoopX (w : Nat) : Nat → (Nat → Cell) → (Nat → Cell)
  | 0, d => d
  | n + 1, d =>
      updAt (updAt (mazeNewLoopX w n d) n (fun c => { c with south := true }))
        (n + w * (w - 1)) (fun c => { c with north := true })

/-- Second boundary loop of `Maze::new` (src/types.rs lines 240-243):
`data[y*w].west` and `data[w-1 + y*w].east` for all `y < n`. -/
def mazeNewLoopY (w : Nat) : Nat → (Nat → Cell) → (Nat → Cell)
  | 0, d => d
  | n + 1, d =>
      updAt (updAt (mazeNewLoopY w n d) (n * w) (fun c => { c with west := true }))
        (w - 1 + n * w) (fun c => { c with east := true })

/-- Cell array produced by `Maze::new`: all-empty cells, then the two
perimeter loops. -/
def mazeNewData (w : Nat) : Nat → Cell :=
  mazeNewLoopY w w (mazeNewLoopX w w (fun _ => Cell.empty))

/-- Rust `Maze::new(start, goal)` (src/types.rs lines 234-245). -/
def mazeNew (w : Nat) (s g : Nat × Nat) : Maze :=
  ⟨s, g, mazeNewData w⟩

/-! ### Text-format loader (src/types.rs `Maze::load_from_str`) -/

/-- Nominal text length for width `w`: `(4*w+2) * (2*w+1)`
(src/types.rs line 251). -/
def nominalLen (w : Nat) : Nat := (4 * w + 2) * (2 * w + 1)

/-- Width inference of `load_from_str` (src/types.rs lines 248-256): the
loop tries the candidate widths 32, 16, 9, 8, 4 in this order and breaks at
the first `w` with `len / nominalLen w == 1` (integer division, NOT exact
equality); `width` stays `0` when no candidate matches. -/
def inferWidth (len : Nat) : Nat :=
  if len / nominalLen 32 = 1 then 32
  else if len / nominalLen 16 = 1 then 16
  else if len / nominalLen 9 = 1 then 9
  else if len / nominalLen 8 = 1 then 8
  else if len / nominalLen 4 = 1 then 4
  else 0

/-- Condition of the fatal `panic!("Loaded data has invalid size")` in
`load_from_str` (src/types.rs lines 257-259): inferred width exceeds the
compiled `WIDTH`, or no candidate matched. -/
def loadPanics (W len : Nat) : Bool :=
  decide (W < inferWidth len) || decide (inferWidth len = 0)

/-- Even ("wall") row of the parser (src/types.rs lines 263-270): for each
`x < width`, a `'-'` at byte `2 + 4*x` sets the north wall of `(x, y)`;
an out-of-bounds byte access panics (`none`). -/
def evenRow (wM width y : Nat) (cs : List Char) (m : Maze) : Option Maze :=
  (List.range width).foldlM
    (fun mz x =>
      match cs.get? (2 + 4 * x) with
      | none => none
      | some ch =>
          some (if ch = '-' then mz.setCellState wM (x, y) .North true else mz))
    m

/-- Odd ("corridor") row of the parser (src/types.rs lines 271-290): for
each `x < width`, byte `4*x` may set the west wall, byte `4*x + 2` may move
start/goal, byte `4*x + 4` may set the east wall. -/
def oddRow (wM width y : Nat) (cs : List Char) (m : Maze) : Option Maze :=
  (List.range width).foldlM
    (fun mz x =>
      match cs.get? (4 * x) with
      | none => none
      | some c0 =>
          let m1 := if c0 = '|' then mz.setCellState wM (x, y) .West true else mz
          match cs.get? (4 * x + 2) with
          | none => none
          | some c2 =>
              let m2 :=
                if c2 = 'S' then { m1 with start := (x, y) }
                else if c2 = 'G' then { m1 with goal := (x, y) }
                else m1
              match cs.get? (4 * x + 4) with
              | none => none
              | some c4 =>
                  some (if c4 = '|' then m2.setCellState wM (x, y) .East true
                        else m2))
    m

/-- Line loop of `load_from_str` (src/types.rs lines 261-291): alternates
wall and corridor rows, maps line number to `y = width - 1 - line_no/2`
(a usize underflow there is a panic, `none`), and stops after the corridor
row with `y = 0`. -/
def parseLoop (wM width : Nat) : List (List Char) → Nat → Maze → Option Maze
  | [], _, m => some m
  | cs :: rest, lineNo, m =>
      if lineNo / 2 ≤ width - 1 then
        let y := width - 1 - lineNo / 2
        if lineNo % 2 = 0 then
          match evenRow wM width y cs m with
          | none => none
          | some m' => parseLoop wM width rest (lineNo + 1) m'
        else
          match oddRow wM width y cs m with
          | none => none
          | some m' =>
              if y = 0 then some m' else parseLoop wM width rest (lineNo + 1) m'
      else none

/-- Rust `Maze::load_from_str` (src/types.rs lines 246-293) for compiled
grid size `wM`: `none` models the fatal conditions (invalid-size panic,
out-of-bounds byte access, usize underflow). The input is taken as ASCII,
so byte positions coincide with character positions. -/
def loadFromStr (wM : Nat) (s : String) : Option Maze :=
  let width := inferWidth s.length
  if loadPanics wM s.length then none
  else
    parseLoop wM width ((s.splitOn "\n").map String.toList) 0
      (mazeNew wM (0, 0) (7, 7))

/-! ### Graph layer (src/graph/mod.rs and src/graph/four_way_grid.rs) -/

/-- Rust `as u8` cast of an `i16` value: the low 8 bits. -/
def toU8 (v : Int) : Nat := (v % 256).toNat

/-- Grid `MAX_NODE_INDEX = WIDTH*WIDTH - 1` (src/graph/four_way_grid.rs
line 37). -/
def gridMax (w : Nat) : Int := (w * w : Nat) - 1

/-- Strict-build `NodeIndex::new` (src/graph/mod.rs lines 20-32, feature
`debug`): rejects values above `MAX_NODE_INDEX`; there is no lower-bound
check. The fast build accepts every value (identity). -/
def nodeIndexNewStrict (M v : Int) : Except Error Int :=
  if M < v then .error .OutOfRange else .ok v

/-- Strict-build `Coord1D::new` (src/types.rs lines 70-78): rejects values
above `Coord1D::MAX = w - 1`. -/
def coord1DNewStrict (w : Nat) (v : Nat) : Except Error Nat :=
  if w - 1 < v then .error .OutOfRange else .ok v

/-- Strict-build `CoordXY::with_u8` / `CoordXY::new` (src/types.rs lines
97-105): both components validated, failure is `OutOfRange`. -/
def coordXYNewStrict (w : Nat) (x y : Nat) : Except Error (Nat × Nat) :=
  match coord1DNewStrict w x, coord1DNewStrict w y with
  | .ok a, .ok b => .ok (a, b)
  | _, _ => .error .OutOfRange

/-- Fast-build `Graph::coord_xy_by_node_index` (src/graph/four_way_grid.rs
lines 10-14): the `i16` index is cast to `u8` BEFORE taking `% WIDTH` and
`/ WIDTH`. -/
def coordXYByNodeIndex (w : Nat) (v : Int) : Nat × Nat :=
  (toU8 v % w, toU8 v / w)

/-- Strict-build `Graph::coord_xy_by_node_index`: same computation, but the
`CoordXY` constructor validates both components. -/
def coordXYByNodeIndexStrict (w : Nat) (v : Int) : Except Error (Nat × Nat) :=
  coordXYNewStrict w (toU8 v % w) (toU8 v / w)

/-- Rust `Graph::node_index_by_coord_xy` (src/graph/four_way_grid.rs lines
21-26): `index = x + y*WIDTH`. -/
def nodeIndexByCoordXY (w : Nat) (c : Nat × Nat) : Int :=
  (c.1 : Int) + (c.2 : Int) * w

/-- Rust `Graph::vector_xy_by_node_index_pair` (src/graph/four_way_grid.rs
lines 15-17), fast build. -/
def vectorXYByNodeIndexPair (w : Nat) (f t : Int) : Int × Int :=
  coordSub (coordXYByNodeIndex w t) (coordXYByNodeIndex w f)

/-- Strict build of `Graph::vector_xy_by_node_index_pair`: the two interior
`.unwrap()` calls panic (`none`) when a computed coordinate fails
validation. -/
def vectorXYByNodeIndexPairStrict (w : Nat) (f t : Int) : Option (Int × Int) :=
  match coordXYByNodeIndexStrict w t, coordXYByNodeIndexStrict w f with
  | .ok ct, .ok cf => some (coordSub ct cf)
  | _, _ => none

/-- Rust `Graph::node_index_diff_by_vector_xy` (src/graph/four_way_grid.rs
lines 18-20): `vector.x + vector.y * WIDTH`. -/
def nodeIndexDiffByVectorXY (w : Nat) (v : Int × Int) : Int :=
  v.1 + v.2 * w

/-- Rust `Graph::optimistic_distance` (src/graph/four_way_grid.rs lines
41-44), fast build: `|dx| + |dy|` of the computed displacement vector. -/
def Graph.optimisticDistance (w : Nat) (f t : Int) : Int :=
  ((vectorXYByNodeIndexPair w f t).1.natAbs : Int) +
    ((vectorXYByNodeIndexPair w f t).2.natAbs : Int)

/-- Rust `Graph::distance` (src/graph/four_way_grid.rs lines 38-40):
delegates to `optimistic_distance`. -/
def Graph.distance (w : Nat) (f t : Int) : Int :=
  Graph.optimisticDistance w f t

/-- Strict build of the distance computation (used inside `Edge::new`):
panics when a coordinate conversion fails. -/
def distanceStrict (w : Nat) (f t : Int) : Option Int :=
  match vectorXYByNodeIndexPairStrict w f t with
  | some v => some ((v.1.natAbs : Int) + (v.2.natAbs : Int))
  | none => none

/-- Edge from src/graph/mod.rs (`struct Edge`): endpoints plus the cost
precomputed by `Edge::new` via `T::distance`. -/
structure EdgeT where
  fromIdx : Int
  toIdx : Int
  cost : Int
deriving DecidableEq, Repr

/-- Rust `Graph::edge_impl` (src/graph/four_way_grid.rs lines 27-34), fast
build: construct the destination index from the direction's unit vector,
then return an edge exactly when the wall flag of `d` on `cell` is clear. -/
def edgeImpl (w : Nat) (cell : Cell) (d : Direction) (i : Int) : Option EdgeT :=
  if cell.state d then none
  else some ⟨i, i + nodeIndexDiffByVectorXY w (dirVec d),
    Graph.distance w i (i + nodeIndexDiffByVectorXY w (dirVec d))⟩

/-- Strict build of `Graph::edge_impl`: the `NodeIndex::new(..).unwrap()` on
the destination runs BEFORE the wall check and panics (outer `none`) when
the value exceeds `MAX_NODE_INDEX`; `Edge::new`'s distance computation can
also panic. The inner option is the function's result. -/
def edgeImplStrict (w : Nat) (cell : Cell) (d : Direction) (i : Int) :
    Option (Option EdgeT) :=
  match nodeIndexNewStrict (gridMax w) (i + nodeIndexDiffByVectorXY w (dirVec d)) with
  | .error _ => none
  | .ok t =>
      if cell.state d then some none
      else
        match distanceStrict w i t with
        | none => none
        | some c => some (some ⟨i, t, c⟩)

/-- Rust `Graph::edge` (src/graph/four_way_grid.rs lines 67-74), fast
build: displacement vector to direction, then `edge_impl` on the source
cell. -/
def Graph.edge (w : Nat) (m : Maze) (f t : Int) : Option EdgeT :=
  match dirOfVec (vectorXYByNodeIndexPair w f t) with
  | some d => edgeImpl w (m.cell w (coordXYByNodeIndex w f)) d f
  | none => none

/-- Strict build of `Graph::edge`; outer `none` is a panic. -/
def Graph.edgeStrict (w : Nat) (m : Maze) (f t : Int) : Option (Option EdgeT) :=
  match coordXYByNodeIndexStrict w f with
  | .error _ => none
  | .ok loc =>
      match vectorXYByNodeIndexPairStrict w f t with
      | none => none
      | some vec =>
          match dirOfVec vec with
          | some d => edgeImplStrict w (m.cell w loc) d f
          | none => some none

/-- Model of `heapless::Vec::push(..).unwrap()` into the capacity-8
neighbour vector (src/graph/four_way_grid.rs line 86): panics when full. -/
def pushOpt (l : List EdgeT) (o : Option EdgeT) : Option (List EdgeT) :=
  match o with
  | some e => if l.length = 8 then none else some (l ++ [e])
  | none => some l

/-- Rust `Graph::neighbors` (src/graph/four_way_grid.rs lines 75-90), fast
build: try the four directions in order North, East, South, West, pushing
each produced edge; `none` models a push on a full vector. -/
def Graph.neighbors (w : Nat) (m : Maze) (f : Int) : Option (List EdgeT) :=
  [Direction.North, .East, .South, .West].foldlM
    (fun l d => pushOpt l (edgeImpl w (m.cell w (coordXYByNodeIndex w f)) d f)) []

/-- Strict build of `Graph::neighbors`; `none` is a panic (from the
location conversion, from `edge_impl`'s unwrap, or from a full push). -/
def neighborsStrict (w : Nat) (m : Maze) (f : Int) : Option (List EdgeT) :=
  match coordXYByNodeIndexStrict w f with
  | .error _ => none
  | .ok loc =>
      [Direction.North, .East, .South, .West].foldlM
        (fun l d => (edgeImplStrict w (m.cell w loc) d f).bind (pushOpt l)) []

/-! ### Invariants -/

/-- Wall symmetry (spec section 3): each in-range pair of adjacent cells
records their shared wall identically on both sides. -/
def WallSym (w : Nat) (m : Maze) : Prop :=
  ∀ x, x < w → ∀ y, y < w → ∀ d : Direction, ∀ p,
    coordAdd w (x, y) (dirVec d) = some p →
      (m.cell w (x, y)).state d = (m.cell w p).state d.inverted

/-- Every perimeter cell has its outward wall flags set (the state
`Maze::new` establishes on the boundary). -/
def BoundaryWalled (w : Nat) (m : Maze) : Prop :=
  ∀ x, x < w → ∀ y, y < w →
    (y = w - 1 → (m.cell w (x, y)).north = true) ∧
    (x = w - 1 → (m.cell w (x, y)).east = true) ∧
    (y = 0 → (m.cell w (x, y)).south = true) ∧
    (x = 0 → (m.cell w (x, y)).west = true)

instance boundaryWalledDecidable (w : Nat) (m : Maze) :
    Decidable (BoundaryWalled w m) := by
  unfold BoundaryWalled
  infer_instance

/-- Mazes reachable through the public construction paths: `Maze::new`,
`Maze::load_from_str`, and `set_cell_state` at a valid coordinate. -/
inductive Reachable (w : Nat) : Maze → Prop where
  | new : ∀ s g, Reachable w (mazeNew w s g)
  | load : ∀ s m, loadFromStr w s = some m → Reachable w m
  | set : ∀ m c d v, Reachable w m → c.1 < w → c.2 < w →
      Reachable w (m.setCellState w c d v)

/-! ### Helper lemmas -/

theorem inverted_inverted (d : Direction) : d.inverted.inverted = d := by
  cases d <;> rfl

theorem state_setState (c : Cell) (d d' : Direction) (v : Bool) :
    (c.setState d v).state d' = if d' = d then v else c.state d' := by
  cases d <;> cases d' <;> simp [Cell.setState, Cell.state]

theorem idx_eq_iff (w : Nat) (q c : Nat × Nat) (hw : 0 < w)
    (hq : q.1 < w) (hc : c.1 < w) :
    q.1 + q.2 * w = c.1 + c.2 * w ↔ q = c := by
  constructor
  · intro h
    have h1 : q.1 = c.1 := by
      have e1 : (q.1 + q.2 * w) % w = (c.1 + c.2 * w) % w := by rw [h]
      rwa [Nat.add_mul_mod_self_right, Nat.add_mul_mod_self_right,
        Nat.mod_eq_of_lt hq, Nat.mod_eq_of_lt hc] at e1
    have h2 : q.2 = c.2 := by
      have e2 : (q.1 + q.2 * w) / w = (c.1 + c.2 * w) / w := by rw [h]
      rwa [Nat.add_mul_div_right _ _ hw, Nat.add_mul_div_right _ _ hw,
        Nat.div_eq_of_lt hq, Nat.div_eq_of_lt hc, Nat.zero_add,
        Nat.zero_add] at e2
    exact Prod.ext h1 h2
  · rintro rfl; rfl

theorem coordAdd_some_iff (w x y : Nat) (d : Direction) (p : Nat × Nat)
    (hw : w ≤ 255) (hx : x < w) (hy : y < w) :
    coordAdd w (x, y) (dirVec d) = some p ↔
      ((p.1 : Int) = x + (dirVec d).1 ∧ (p.2 : Int) = y + (dirVec d).2 ∧
        p.1 < w ∧ p.2 < w) := by
  obtain ⟨p1, p2⟩ := p
  cases d <;>
    · simp only [coordAdd, dirVec]
      split_ifs with h
      · simp only [Option.some.injEq, Prod.mk.injEq]
        constructor
        · rintro ⟨rfl, rfl⟩
          refine ⟨by omega, by omega, by omega, by omega⟩
        · rintro ⟨e1, e2, l1, l2⟩
          constructor <;> omega
      · simp only [reduceCtorEq, false_iff, not_and]
        intro e1 e2 l1
        omega

theorem coordAdd_mem (w : Nat) (c : Nat × Nat) (u : Int × Int) (p : Nat × Nat)
    (hw : 0 < w) (h : coordAdd w c u = some p) : p.1 < w ∧ p.2 < w := by
  simp only [coordAdd] at h
  split_ifs at h with hcond
  · cases h
    exact ⟨by omega, by omega⟩

theorem coordAdd_ne (w x y : Nat) (d : Direction) (p : Nat × Nat)
    (hw : w ≤ 255) (hx : x < w) (hy : y < w)
    (h : coordAdd w (x, y) (dirVec d) = some p) : p ≠ (x, y) := by
  rw [coordAdd_some_iff w x y d p hw hx hy] at h
  obtain ⟨p1, p2⟩ := p
  intro he
  injection he with he1 he2
  cases d <;> simp [dirVec] at h <;> omega

theorem coordAdd_symm (w x y : Nat) (d : Direction) (p : Nat × Nat)
    (hw : w ≤ 255) (hx : x < w) (hy : y < w)
    (h : coordAdd w (x, y) (dirVec d) = some p) :
    coordAdd w p (dirVec d.inverted) = some (x, y) := by
  rw [coordAdd_some_iff w x y d p hw hx hy] at h
  obtain ⟨p1, p2⟩ := p
  rw [coordAdd_some_iff w p1 p2 d.inverted (x, y) hw (by omega) (by omega)]
  cases d <;> simp [dirVec, Direction.inverted] at h ⊢ <;> omega

theorem coordAdd_dir_inj (w x y : Nat) (d1 d2 : Direction) (p : Nat × Nat)
    (hw : w ≤ 255) (hx : x < w) (hy : y < w)
    (h1 : coordAdd w (x, y) (dirVec d1) = some p)
    (h2 : coordAdd w (x, y) (dirVec d2) = some p) : d1 = d2 := by
  rw [coordAdd_some_iff w x y d1 p hw hx hy] at h1
  rw [coordAdd_some_iff w x y d2 p hw hx hy] at h2
  cases d1 <;> cases d2 <;> first
    | rfl
    | (exfalso; simp [dirVec] at h1 h2; omega)

theorem cell_setCellState (w : Nat) (m : Maze) (c q : Nat × Nat)
    (d : Direction) (v : Bool) (hw : 0 < w)
    (hc : c.1 < w) (hq : q.1 < w) :
    (m.setCellState w c d v).cell w q =
      (match coordAdd w c (dirVec d) with
       | some c2 =>
           if q = c2 then
             (if q = c then (m.cell w q).setState d v else m.cell w q).setState
               d.inverted v
           else if q = c then (m.cell w q).setState d v else m.cell w q
       | none =>
           if q = c then (m.cell w q).setState d v else m.cell w q) := by
  cases h : coordAdd w c (dirVec d) with
  | none =>
      have e1 := idx_eq_iff w q c hw hq hc
      simp only [Maze.setCellState, h, Maze.cell, updAt]
      by_cases hqc : q = c <;> simp [e1, hqc]
  | some c2 =>
      have hc2 : c2.1 < w ∧ c2.2 < w := coordAdd_mem w c (dirVec d) c2 hw h
      have e1 := idx_eq_iff w q c hw hq hc
      have e2 := idx_eq_iff w q c2 hw hq hc2.1
      have e3 := idx_eq_iff w c c2 hw hc hc2.1
      have e4 := idx_eq_iff w c2 c hw hc2.1 hc
      simp only [Maze.setCellState, h, Maze.cell, updAt]
      by_cases hqc2 : q = c2 <;> by_cases hqc : q = c <;>
        simp [e1, e2, e3, e4, hqc, hqc2]

theorem wallSym_setCellState (w : Nat) (m : Maze) (c : Nat × Nat)
    (d : Direction) (v : Bool) (hw0 : 0 < w) (hw255 : w ≤ 255)
    (hcx : c.1 < w) (hcy : c.2 < w) (hm : WallSym w m) :
    WallSym w (m.setCellState w c d v) := by
  obtain ⟨cx, cy⟩ := c
  simp only at hcx hcy
  have dinj : ∀ a b : Direction, a.inverted = b.inverted → a = b := by
    intro a b h
    cases a <;> cases b <;> simp_all [Direction.inverted]
  have dInvInv : ∀ a : Direction, a.inverted.inverted = a := inverted_inverted
  intro x hx y hy d' p hp
  have hpmem := coordAdd_mem w (x, y) (dirVec d') p hw0 hp
  have hpne : p ≠ (x, y) := coordAdd_ne w x y d' p hw255 hx hy hp
  have hsymm' : coordAdd w p (dirVec d'.inverted) = some (x, y) :=
    coordAdd_symm w x y d' p hw255 hx hy hp
  rw [cell_setCellState w m (cx, cy) (x, y) d v hw0 hcx hx,
    cell_setCellState w m (cx, cy) p d v hw0 hcx hpmem.1]
  cases hcc : coordAdd w (cx, cy) (dirVec d) with
  | none =>
      simp only
      by_cases h1 : (x, y) = (cx, cy)
      · by_cases hdd : d' = d
        · exfalso
          rw [h1, hdd] at hp
          rw [hp] at hcc
          exact Option.noConfusion hcc
        · rw [if_pos h1, state_setState, if_neg hdd]
          rw [if_neg (h1 ▸ hpne : ¬ p = (cx, cy))]
          exact hm x hx y hy d' p hp
      · rw [if_neg h1]
        by_cases h2 : p = (cx, cy)
        · rw [if_pos h2, state_setState]
          by_cases hdi : d'.inverted = d
          · exfalso
            rw [h2, hdi] at hsymm'
            rw [hsymm'] at hcc
            exact Option.noConfusion hcc
          · rw [if_neg hdi]
            exact hm x hx y hy d' p hp
        · rw [if_neg h2]
          exact hm x hx y hy d' p hp
  | some c2 =>
      have hc2mem := coordAdd_mem w (cx, cy) (dirVec d) c2 hw0 hcc
      have hc2ne : c2 ≠ (cx, cy) := coordAdd_ne w cx cy d c2 hw255 hcx hcy hcc
      have hsymm : coordAdd w c2 (dirVec d.inverted) = some (cx, cy) :=
        coordAdd_symm w cx cy d c2 hw255 hcx hcy hcc
      simp only
      by_cases h1 : (x, y) = (cx, cy)
      · have h2 : ¬ (x, y) = c2 := fun he => hc2ne (h1 ▸ he.symm)
        rw [if_neg h2, if_pos h1, state_setState]
        by_cases hdd : d' = d
        · rw [if_pos hdd]
          have hpc2 : p = c2 := by
            rw [h1, hdd] at hp
            exact Option.some.inj (hp.symm.trans hcc)
          have hpc : ¬ p = (cx, cy) := h1 ▸ hpne
          rw [if_pos hpc2, if_neg hpc, state_setState, if_pos (by rw [hdd])]
        · rw [if_neg hdd]
          have hpc2 : ¬ p = c2 := by
            intro he
            apply hdd
            refine coordAdd_dir_inj w x y d' d p hw255 hx hy hp ?_
            rw [h1, hcc, he]
          have hpc : ¬ p = (cx, cy) := h1 ▸ hpne
          rw [if_neg hpc2, if_neg hpc]
          exact hm x hx y hy d' p hp
      · by_cases h2 : (x, y) = c2
        · rw [if_pos h2, if_neg h1, state_setState]
          by_cases hdi : d' = d.inverted
          · rw [if_pos hdi]
            have hpc : p = (cx, cy) := by
              rw [h2, hdi] at hp
              exact Option.some.inj (hp.symm.trans hsymm)
            have hpc2 : ¬ p = c2 := fun he => hc2ne (hpc ▸ he.symm)
            rw [if_neg hpc2, if_pos hpc, state_setState]
            rw [if_pos (by rw [hdi, dInvInv])]
          · rw [if_neg hdi]
            have hpc : ¬ p = (cx, cy) := by
              intro he
              apply hdi
              have hA : coordAdd w (cx, cy) (dirVec d'.inverted) = some (x, y) :=
                he ▸ hsymm'
              have hB : coordAdd w (cx, cy) (dirVec d) = some (x, y) := by
                rw [hcc]
                exact congrArg some h2.symm
              have hinj : d'.inverted = d :=
                coordAdd_dir_inj w cx cy d'.inverted d (x, y) hw255 hcx hcy hA hB
              exact dinj d' d.inverted (hinj.trans (dInvInv d).symm)
            have hpc2 : ¬ p = c2 := h2 ▸ hpne
            rw [if_neg hpc2, if_neg hpc]
            exact hm x hx y hy d' p hp
        · rw [if_neg h2, if_neg h1]
          by_cases hpc2 : p = c2
          · rw [if_pos hpc2, state_setState]
            have hcond : ¬ d'.inverted = d.inverted := by
              intro he
              have hdd : d' = d := dinj d' d he
              apply h1
              have hA : coordAdd w c2 (dirVec d.inverted) = some (x, y) := by
                rw [← hpc2, ← hdd]
                exact hsymm'
              exact Option.some.inj (hA.symm.trans hsymm)
            rw [if_neg hcond]
            have hpc : ¬ p = (cx, cy) := fun he => hc2ne (hpc2 ▸ he)
            rw [if_neg hpc]
            exact hm x hx y hy d' p hp
          · rw [if_neg hpc2]
            by_cases hpc : p = (cx, cy)
            · rw [if_pos hpc, state_setState]
              have hcond : ¬ d'.inverted = d := by
                intro he
                apply h2
                have hA : coordAdd w (cx, cy) (dirVec d) = some (x, y) := by
                  rw [← hpc, ← he]
                  exact hsymm'
                exact Option.some.inj (hA.symm.trans hcc)
              rw [if_neg hcond]
              exact hm x hx y hy d' p hp
            · rw [if_neg hpc]
              exact hm x hx y hy d' p hp

theorem mazeNewData_char (w x y : Nat) (hw : w = 8 ∨ w = 16 ∨ w = 32)
    (hx : x < w) (hy : y < w) :
    mazeNewData w (x + y * w) =
      ⟨decide (y = w - 1), decide (x = w - 1), decide (y = 0), decide (x = 0),
        false, false, false, false⟩ := by
  rcases hw with rfl | rfl | rfl
  · have H : ∀ x' : Nat, x' < 8 → ∀ y' : Nat, y' < 8 →
        mazeNewData 8 (x' + y' * 8) =
          ⟨decide (y' = 7), decide (x' = 7), decide (y' = 0), decide (x' = 0),
            false, false, false, false⟩ := by decide
    exact H x hx y hy
  · have H : ∀ x' : Nat, x' < 16 → ∀ y' : Nat, y' < 16 →
        mazeNewData 16 (x' + y' * 16) =
          ⟨decide (y' = 15), decide (x' = 15), decide (y' = 0), decide (x' = 0),
            false, false, false, false⟩ := by decide
    exact H x hx y hy
  · have H : ∀ x' : Nat, x' < 32 → ∀ y' : Nat, y' < 32 →
        mazeNewData 32 (x' + y' * 32) =
          ⟨decide (y' = 31), decide (x' = 31), decide (y' = 0), decide (x' = 0),
            false, false, false, false⟩ := by decide
    exact H x hx y hy

theorem wallSym_mazeNew (w : Nat) (s g : Nat × Nat)
    (hw : w = 8 ∨ w = 16 ∨ w = 32) : WallSym w (mazeNew w s g) := by
  have hw255 : w ≤ 255 := by rcases hw with rfl | rfl | rfl <;> norm_num
  have hw0 : 0 < w := by rcases hw with rfl | rfl | rfl <;> norm_num
  intro x hx y hy d p hp
  have hpmem := coordAdd_mem w (x, y) (dirVec d) p hw0 hp
  rw [coordAdd_some_iff w x y d p hw255 hx hy] at hp
  obtain ⟨p1, p2⟩ := p
  simp only [Maze.cell, mazeNew] at *
  rw [mazeNewData_char w x y hw hx hy,
    mazeNewData_char w p1 p2 hw (by exact hpmem.1) (by exact hpmem.2)]
  cases d <;>
    simp only [dirVec, Direction.inverted, Cell.state] at hp ⊢ <;>
    · rw [decide_eq_decide]
      omega

theorem foldlM_option_preserve {α β : Type} (P : β → Prop)
    (step : β → α → Option β) (l : List α)
    (hstep : ∀ b a b', a ∈ l → P b → step b a = some b' → P b') :
    ∀ b b', P b → l.foldlM step b = some b' → P b' := by
  induction l with
  | nil =>
      intro b b' hb h
      simp only [List.foldlM_nil] at h
      cases h
      exact hb
  | cons a l ih =>
      intro b b' hb h
      rw [List.foldlM_cons] at h
      cases hs : step b a with
      | none => rw [hs] at h; exact Option.noConfusion h
      | some b2 =>
          rw [hs] at h
          exact ih (fun b3 a' b4 ha' => hstep b3 a' b4 (List.mem_cons_of_mem a ha'))
            b2 b' (hstep b a b2 (List.mem_cons_self a l) hb hs) h

theorem wallSym_start_goal (w : Nat) (m : Maze) (s g : Nat × Nat)
    (hm : WallSym w m) : WallSym w ⟨s, g, m.data⟩ := hm

theorem wallSym_evenRow (w width y : Nat) (cs : List Char) (m m' : Maze)
    (hw : w = 8 ∨ w = 16 ∨ w = 32) (hwidth : width ≤ w) (hy : y < w)
    (hm : WallSym w m) (h : evenRow w width y cs m = some m') : WallSym w m' := by
  have hw255 : w ≤ 255 := by rcases hw with rfl | rfl | rfl <;> norm_num
  have hw0 : 0 < w := by rcases hw with rfl | rfl | rfl <;> norm_num
  refine foldlM_option_preserve (WallSym w) _ (List.range width) ?_ m m' hm h
  intro mz x m2 hx hmz hs
  rw [List.mem_range] at hx
  cases hg : cs.get? (2 + 4 * x) with
  | none => rw [hg] at hs; exact Option.noConfusion hs
  | some ch =>
      rw [hg] at hs
      simp only [Option.some.injEq] at hs
      rw [← hs]
      split_ifs
      · exact wallSym_setCellState w mz (x, y) .North true hw0 hw255
          (by simp; omega) (by simpa) hmz
      · exact hmz

theorem wallSym_oddRow (w width y : Nat) (cs : List Char) (m m' : Maze)
    (hw : w = 8 ∨ w = 16 ∨ w = 32) (hwidth : width ≤ w) (hy : y < w)
    (hm : WallSym w m) (h : oddRow w width y cs m = some m') : WallSym w m' := by
  have hw255 : w ≤ 255 := by rcases hw with rfl | rfl | rfl <;> norm_num
  have hw0 : 0 < w := by rcases hw with rfl | rfl | rfl <;> norm_num
  refine foldlM_option_preserve (WallSym w) _ (List.range width) ?_ m m' hm h
  intro mz x m2 hx hmz hs
  rw [List.mem_range] at hx
  have hxw : x < w := by omega
  cases hg0 : cs.get? (4 * x) with
  | none => rw [hg0] at hs; exact Option.noConfusion hs
  | some c0 =>
      rw [hg0] at hs
      cases hg2 : cs.get? (4 * x + 2) with
      | none => rw [hg2] at hs; exact Option.noConfusion hs
      | some c2 =>
          rw [hg2] at hs
          cases hg4 : cs.get? (4 * x + 4) with
          | none => rw [hg4] at hs; exact Option.noConfusion hs
          | some c4 =>
              rw [hg4] at hs
              simp only [Option.some.injEq] at hs
              rw [← hs]
              split_ifs <;>
                (repeat' first
                  | exact hmz
                  | exact wallSym_setCellState w _ (x, y) _ true hw0 hw255
                      (by simpa using hxw) (by simpa using hy) (by
                        repeat' first
                          | exact hmz
                          | exact wallSym_setCellState w _ (x, y) _ true hw0
                              hw255 (by simpa using hxw) (by simpa using hy)
                              hmz
                          | apply wallSym_start_goal)
                  | apply wallSym_start_goal)

theorem wallSym_parseLoop (w width : Nat)
    (hw : w = 8 ∨ w = 16 ∨ w = 32) (hwidth : width ≤ w) :
    ∀ (lines : List (List Char)) (ln : Nat) (m m' : Maze), WallSym w m →
      parseLoop w width lines ln m = some m' → WallSym w m' := by
  intro lines
  induction lines with
  | nil =>
      intro ln m m' hm h
      simp only [parseLoop] at h
      cases h
      exact hm
  | cons cs rest ih =>
      intro ln m m' hm h
      simp only [parseLoop] at h
      by_cases hln : ln / 2 ≤ width - 1
      swap
      · rw [if_neg hln] at h
        exact Option.noConfusion h
      rw [if_pos hln] at h
      have hy : width - 1 - ln / 2 < w := by omega
      by_cases hpar : ln % 2 = 0
      · rw [if_pos hpar] at h
        cases he : evenRow w width (width - 1 - ln / 2) cs m with
        | none => rw [he] at h; exact Option.noConfusion h
        | some m1 =>
            rw [he] at h
            exact ih (ln + 1) m1 m'
              (wallSym_evenRow w width _ cs m m1 hw hwidth hy hm he) h
      · rw [if_neg hpar] at h
        cases ho : oddRow w width (width - 1 - ln / 2) cs m with
        | none => rw [ho] at h; exact Option.noConfusion h
        | some m1 =>
            rw [ho] at h
            dsimp only at h
            have hm1 : WallSym w m1 :=
              wallSym_oddRow w width _ cs m m1 hw hwidth hy hm ho
            by_cases hy0 : width - 1 - ln / 2 = 0
            · rw [if_pos hy0] at h
              cases h
              exact hm1
            · rw [if_neg hy0] at h
              exact ih (ln + 1) m1 m' hm1 h

theorem wallSym_loadFromStr (w : Nat) (s : String) (m : Maze)
    (hw : w = 8 ∨ w = 16 ∨ w = 32) (h : loadFromStr w s = some m) :
    WallSym w m := by
  simp only [loadFromStr] at h
  by_cases hpan : loadPanics w s.length = true
  · rw [if_pos hpan] at h
    exact Option.noConfusion h
  · rw [if_neg hpan] at h
    have hwid : inferWidth s.length ≤ w := by
      simp only [loadPanics, Bool.or_eq_true, decide_eq_true_eq] at hpan
      omega
    exact wallSym_parseLoop w (inferWidth s.length) hw hwid _ 0
      (mazeNew w (0, 0) (7, 7)) m (wallSym_mazeNew w (0, 0) (7, 7) hw) h

theorem reachable_wallSym (w : Nat) (m : Maze)
    (hw : w = 8 ∨ w = 16 ∨ w = 32) (h : Reachable w m) : WallSym w m := by
  have hw255 : w ≤ 255 := by rcases hw with rfl | rfl | rfl <;> norm_num
  have hw0 : 0 < w := by rcases hw with rfl | rfl | rfl <;> norm_num
  induction h with
  | new s g => exact wallSym_mazeNew w s g hw
  | load s m hload => exact wallSym_loadFromStr w s m hw hload
  | set m c d v hr hc1 hc2 ih =>
      exact wallSym_setCellState w m c d v hw0 hw255 hc1 hc2 ih

theorem toU8_nat (n : Nat) (h : n < 256) : toU8 (n : Int) = n := by
  simp only [toU8]
  omega

theorem coordXY_of_nat (w n : Nat) (h : n < 256) :
    coordXYByNodeIndex w (n : Int) = (n % w, n / w) := by
  simp only [coordXYByNodeIndex]
  rw [toU8_nat n h]

theorem dirOfVec_unit (d : Direction) : dirOfVec (dirVec d) = some d := by
  cases d <;> rfl

theorem edgeImpl_eq_edge (w : Nat) (m : Maze) (n : Nat) (d : Direction)
    (hw : w = 8 ∨ w = 16) (hn : n < w * w) (hb : BoundaryWalled w m) :
    edgeImpl w (m.cell w (coordXYByNodeIndex w (n : Int))) d n =
      Graph.edge w m n ((n : Int) + nodeIndexDiffByVectorXY w (dirVec d)) := by
  rcases hw with rfl | rfl
  · rw [coordXY_of_nat 8 n (by omega)]
    cases d with
    | North =>
        have hv : vectorXYByNodeIndexPair 8 (n : Int)
            ((n : Int) + nodeIndexDiffByVectorXY 8 (dirVec .North)) = (0, 1) := by
          simp only [vectorXYByNodeIndexPair, coordXYByNodeIndex, coordSub,
            toU8, nodeIndexDiffByVectorXY, dirVec, Prod.mk.injEq]
          exact ⟨by omega, by omega⟩
        rw [Graph.edge, hv, coordXY_of_nat 8 n (by omega)]
        rfl
    | East =>
        by_cases hx : n % 8 = 7
        · have hwall : (m.cell 8 (n % 8, n / 8)).state .East = true := by
            have := (hb (n % 8) (by omega) (n / 8) (by omega)).2.1 (by omega)
            simpa [Cell.state] using this
          have hvd : dirOfVec (vectorXYByNodeIndexPair 8 (n : Int)
              ((n : Int) + nodeIndexDiffByVectorXY 8 (dirVec .East))) = none := by
            simp only [dirOfVec, vectorXYByNodeIndexPair, coordXYByNodeIndex,
              coordSub, toU8, nodeIndexDiffByVectorXY, dirVec, Prod.mk.injEq]
            rw [if_neg (by omega), if_neg (by omega), if_neg (by omega),
              if_neg (by omega)]
          rw [Graph.edge, hvd]
          simp [edgeImpl, hwall]
        · have hv : vectorXYByNodeIndexPair 8 (n : Int)
              ((n : Int) + nodeIndexDiffByVectorXY 8 (dirVec .East)) = (1, 0) := by
            simp only [vectorXYByNodeIndexPair, coordXYByNodeIndex, coordSub,
              toU8, nodeIndexDiffByVectorXY, dirVec, Prod.mk.injEq]
            exact ⟨by omega, by omega⟩
          rw [Graph.edge, hv, coordXY_of_nat 8 n (by omega)]
          rfl
    | South =>
        by_cases hy : n / 8 = 0
        · have hwall : (m.cell 8 (n % 8, n / 8)).state .South = true := by
            have := (hb (n % 8) (by omega) (n / 8) (by omega)).2.2.1 (by omega)
            simpa [Cell.state] using this
          have hvd : dirOfVec (vectorXYByNodeIndexPair 8 (n : Int)
              ((n : Int) + nodeIndexDiffByVectorXY 8 (dirVec .South))) = none := by
            simp only [dirOfVec, vectorXYByNodeIndexPair, coordXYByNodeIndex,
              coordSub, toU8, nodeIndexDiffByVectorXY, dirVec, Prod.mk.injEq]
            rw [if_neg (by omega), if_neg (by omega), if_neg (by omega),
              if_neg (by omega)]
          rw [Graph.edge, hvd]
          simp [edgeImpl, hwall]
        · have hv : vectorXYByNodeIndexPair 8 (n : Int)
              ((n : Int) + nodeIndexDiffByVectorXY 8 (dirVec .South)) = (0, -1) := by
            simp only [vectorXYByNodeIndexPair, coordXYByNodeIndex, coordSub,
              toU8, nodeIndexDiffByVectorXY, dirVec, Prod.mk.injEq]
            exact ⟨by omega, by omega⟩
          rw [Graph.edge, hv, coordXY_of_nat 8 n (by omega)]
          rfl
    | West =>
        by_cases hx : n % 8 = 0
        · have hwall : (m.cell 8 (n % 8, n / 8)).state .West = true := by
            have := (hb (n % 8) (by omega) (n / 8) (by omega)).2.2.2 (by omega)
            simpa [Cell.state] using this
          have hvd : dirOfVec (vectorXYByNodeIndexPair 8 (n : Int)
              ((n : Int) + nodeIndexDiffByVectorXY 8 (dirVec .West))) = none := by
            simp only [dirOfVec, vectorXYByNodeIndexPair, coordXYByNodeIndex,
              coordSub, toU8, nodeIndexDiffByVectorXY, dirVec, Prod.mk.injEq]
            rw [if_neg (by omega), if_neg (by omega), if_neg (by omega),
              if_neg (by omega)]
          rw [Graph.edge, hvd]
          simp [edgeImpl, hwall]
        · have hv : vectorXYByNodeIndexPair 8 (n : Int)
              ((n : Int) + nodeIndexDiffByVectorXY 8 (dirVec .West)) = (-1, 0) := by
            simp only [vectorXYByNodeIndexPair, coordXYByNodeIndex, coordSub,
              toU8, nodeIndexDiffByVectorXY, dirVec, Prod.mk.injEq]
            exact ⟨by omega, by omega⟩
          rw [Graph.edge, hv, coordXY_of_nat 8 n (by omega)]
          rfl
  · rw [coordXY_of_nat 16 n (by omega)]
    cases d with
    | North =>
        by_cases hy : n / 16 = 15
        · have hwall : (m.cell 16 (n % 16, n / 16)).state .North = true := by
            have := (hb (n % 16) (by omega) (n / 16) (by omega)).1 (by omega)
            simpa [Cell.state] using this
          have hvd : dirOfVec (vectorXYByNodeIndexPair 16 (n : Int)
              ((n : Int) + nodeIndexDiffByVectorXY 16 (dirVec .North))) = none := by
            simp only [dirOfVec, vectorXYByNodeIndexPair, coordXYByNodeIndex,
              coordSub, toU8, nodeIndexDiffByVectorXY, dirVec, Prod.mk.injEq]
            rw [if_neg (by omega), if_neg (by omega), if_neg (by omega),
              if_neg (by omega)]
          rw [Graph.edge, hvd]
          simp [edgeImpl, hwall]
        · have hv : vectorXYByNodeIndexPair 16 (n : Int)
              ((n : Int) + nodeIndexDiffByVectorXY 16 (dirVec .North)) = (0, 1) := by
            simp only [vectorXYByNodeIndexPair, coordXYByNodeIndex, coordSub,
              toU8, nodeIndexDiffByVectorXY, dirVec, Prod.mk.injEq]
            exact ⟨by omega, by omega⟩
          rw [Graph.edge, hv, coordXY_of_nat 16 n (by omega)]
          rfl
    | East =>
        by_cases hx : n % 16 = 15
        · have hwall : (m.cell 16 (n % 16, n / 16)).state .East = true := by
            have := (hb (n % 16) (by omega) (n / 16) (by omega)).2.1 (by omega)
            simpa [Cell.state] using this
          have hvd : dirOfVec (vectorXYByNodeIndexPair 16 (n : Int)
              ((n : Int) + nodeIndexDiffByVectorXY 16 (dirVec .East))) = none := by
            simp only [dirOfVec, vectorXYByNodeIndexPair, coordXYByNodeIndex,
              coordSub, toU8, nodeIndexDiffByVectorXY, dirVec, Prod.mk.injEq]
            rw [if_neg (by omega), if_neg (by omega), if_neg (by omega),
              if_neg (by omega)]
          rw [Graph.edge, hvd]
          simp [edgeImpl, hwall]
        · have hv : vectorXYByNodeIndexPair 16 (n : Int)
              ((n : Int) + nodeIndexDiffByVectorXY 16 (dirVec .East)) = (1, 0) := by
            simp only [vectorXYByNodeIndexPair, coordXYByNodeIndex, coordSub,
              toU8, nodeIndexDiffByVectorXY, dirVec, Prod.mk.injEq]
            exact ⟨by omega, by omega⟩
          rw [Graph.edge, hv, coordXY_of_nat 16 n (by omega)]
          rfl
    | South =>
        by_cases hy : n / 16 = 0
        · have hwall : (m.cell 16 (n % 16, n / 16)).state .South = true := by
            have := (hb (n % 16) (by omega) (n / 16) (by omega)).2.2.1 (by omega)
            simpa [Cell.state] using this
          have hvd : dirOfVec (vectorXYByNodeIndexPair 16 (n : Int)
              ((n : Int) + nodeIndexDiffByVectorXY 16 (dirVec .South))) = none := by
            simp only [dirOfVec, vectorXYByNodeIndexPair, coordXYByNodeIndex,
              coordSub, toU8, nodeIndexDiffByVectorXY, dirVec, Prod.mk.injEq]
            rw [if_neg (by omega), if_neg (by omega), if_neg (by omega),
              if_neg (by omega)]
          rw [Graph.edge, hvd]
          simp [edgeImpl, hwall]
        · have hv : vectorXYByNodeIndexPair 16 (n : Int)
              ((n : Int) + nodeIndexDiffByVectorXY 16 (dirVec .South)) = (0, -1) := by
            simp only [vectorXYByNodeIndexPair, coordXYByNodeIndex, coordSub,
              toU8, nodeIndexDiffByVectorXY, dirVec, Prod.mk.injEq]
            exact ⟨by omega, by omega⟩
          rw [Graph.edge, hv, coordXY_of_nat 16 n (by omega)]
          rfl
    | West =>
        by_cases hx : n % 16 = 0
        · have hwall : (m.cell 16 (n % 16, n / 16)).state .West = true := by
            have := (hb (n % 16) (by omega) (n / 16) (by omega)).2.2.2 (by omega)
            simpa [Cell.state] using this
          have hvd : dirOfVec (vectorXYByNodeIndexPair 16 (n : Int)
              ((n : Int) + nodeIndexDiffByVectorXY 16 (dirVec .West))) = none := by
            simp only [dirOfVec, vectorXYByNodeIndexPair, coordXYByNodeIndex,
              coordSub, toU8, nodeIndexDiffByVectorXY, dirVec, Prod.mk.injEq]
            rw [if_neg (by omega), if_neg (by omega), if_neg (by omega),
              if_neg (by omega)]
          rw [Graph.edge, hvd]
          simp [edgeImpl, hwall]
        · have hv : vectorXYByNodeIndexPair 16 (n : Int)
              ((n : Int) + nodeIndexDiffByVectorXY 16 (dirVec .West)) = (-1, 0) := by
            simp only [vectorXYByNodeIndexPair, coordXYByNodeIndex, coordSub,
              toU8, nodeIndexDiffByVectorXY, dirVec, Prod.mk.injEq]
            exact ⟨by omega, by omega⟩
          rw [Graph.edge, hv, coordXY_of_nat 16 n (by omega)]
          rfl

theorem neighbors_eval (w : Nat) (m : Maze) (f : Int)
    (oN oE oS oW : Option EdgeT)
    (hN : edgeImpl w (m.cell w (coordXYByNodeIndex w f)) .North f = oN)
    (hE : edgeImpl w (m.cell w (coordXYByNodeIndex w f)) .East f = oE)
    (hS : edgeImpl w (m.cell w (coordXYByNodeIndex w f)) .South f = oS)
    (hW : edgeImpl w (m.cell w (coordXYByNodeIndex w f)) .West f = oW) :
    Graph.neighbors w m f =
      some ([Direction.North, .East, .South, .West].filterMap
        (fun d => edgeImpl w (m.cell w (coordXYByNodeIndex w f)) d f)) := by
  simp only [Graph.neighbors, List.foldlM_cons, List.foldlM_nil,
    List.filterMap_cons, List.filterMap_nil, hN, hE, hS, hW]
  cases oN <;> cases oE <;> cases oS <;> cases oW <;>
    simp [pushOpt, Option.bind]

theorem toU8_lt (v : Int) : toU8 v < 256 := by
  simp only [toU8]
  omega

theorem coordXYStrict_ok_int (w : Nat) (v : Int) (hw0 : 0 < w)
    (hy : toU8 v / w ≤ w - 1) :
    coordXYByNodeIndexStrict w v = .ok (toU8 v % w, toU8 v / w) := by
  have hx : toU8 v % w < w := Nat.mod_lt _ hw0
  simp only [coordXYByNodeIndexStrict, coordXYNewStrict, coord1DNewStrict]
  rw [if_neg (by omega), if_neg (by omega)]

theorem distanceStrict_ok (w : Nat) (f t : Int) (cf ct : Nat × Nat)
    (hf : coordXYByNodeIndexStrict w f = .ok cf)
    (ht : coordXYByNodeIndexStrict w t = .ok ct) :
    distanceStrict w f t =
      some (((coordSub ct cf).1.natAbs : Int) + ((coordSub ct cf).2.natAbs : Int)) := by
  simp [distanceStrict, vectorXYByNodeIndexPairStrict, hf, ht]

theorem edgeImplStrict_isSome_of (w : Nat) (cell : Cell) (d : Direction) (i : Int)
    (h1 : i + nodeIndexDiffByVectorXY w (dirVec d) ≤ gridMax w)
    (h2 : ∃ c, coordXYByNodeIndexStrict w i = .ok c)
    (h3 : ∃ c, coordXYByNodeIndexStrict w
      (i + nodeIndexDiffByVectorXY w (dirVec d)) = .ok c) :
    (edgeImplStrict w cell d i).isSome = true := by
  obtain ⟨cf, hf⟩ := h2
  obtain ⟨ct, ht⟩ := h3
  simp only [edgeImplStrict, nodeIndexNewStrict, if_neg (not_lt.mpr h1)]
  by_cases hst : cell.state d <;>
    simp [hst, distanceStrict_ok w i _ cf ct hf ht]

theorem edgeImplStrict_isSome_wall (w : Nat) (cell : Cell) (d : Direction) (i : Int)
    (h1 : i + nodeIndexDiffByVectorXY w (dirVec d) ≤ gridMax w)
    (hst : cell.state d = true) :
    (edgeImplStrict w cell d i).isSome = true := by
  simp [edgeImplStrict, nodeIndexNewStrict, if_neg (not_lt.mpr h1), hst]

theorem edgeImplStrict_north_top (w : Nat) (cell : Cell) (n : Nat)
    (hw : w = 8 ∨ w = 16 ∨ w = 32) (hn : w * w - w ≤ n) :
    edgeImplStrict w cell .North (n : Int) = none := by
  have h : gridMax w < (n : Int) + nodeIndexDiffByVectorXY w (dirVec .North) := by
    simp only [gridMax, nodeIndexDiffByVectorXY, dirVec]
    rcases hw with rfl | rfl | rfl <;> (norm_num; omega)
  simp [edgeImplStrict, nodeIndexNewStrict, if_pos h]

theorem edgeImplStrict_isSome_valid (w : Nat) (m : Maze) (n : Nat) (d : Direction)
    (hw : w = 8 ∨ w = 16 ∨ w = 32) (hn : n < w * w - w) (hb : BoundaryWalled w m) :
    (edgeImplStrict w (m.cell w (toU8 (n : Int) % w, toU8 (n : Int) / w)) d
      (n : Int)).isSome = true := by
  have hw0 : 0 < w := by rcases hw with rfl | rfl | rfl <;> norm_num
  rcases hw with rfl | rfl | rfl
  · cases d with
    | North =>
        refine edgeImplStrict_isSome_of 8 _ _ _ ?_ ?_ ?_ <;>
          first
            | (simp only [nodeIndexDiffByVectorXY, dirVec, gridMax]; omega)
            | exact ⟨_, coordXYStrict_ok_int 8 _ hw0 (by
                simp only [toU8, nodeIndexDiffByVectorXY, dirVec]; omega)⟩
    | East =>
        refine edgeImplStrict_isSome_of 8 _ _ _ ?_ ?_ ?_ <;>
          first
            | (simp only [nodeIndexDiffByVectorXY, dirVec, gridMax]; omega)
            | exact ⟨_, coordXYStrict_ok_int 8 _ hw0 (by
                simp only [toU8, nodeIndexDiffByVectorXY, dirVec]; omega)⟩
    | South =>
        by_cases hy : n / 8 = 0
        · refine edgeImplStrict_isSome_wall 8 _ _ _ ?_ ?_
          · simp only [nodeIndexDiffByVectorXY, dirVec, gridMax]
            omega
          · have hbw := (hb (n % 8) (by omega) (n / 8) (by omega)).2.2.1 (by omega)
            have hcoord : (toU8 (n : Int) % 8, toU8 (n : Int) / 8) = (n % 8, n / 8) := by
              rw [toU8_nat n (by omega)]
            rw [hcoord]
            simpa [Cell.state] using hbw
        · refine edgeImplStrict_isSome_of 8 _ _ _ ?_ ?_ ?_ <;>
            first
              | (simp only [nodeIndexDiffByVectorXY, dirVec, gridMax]; omega)
              | exact ⟨_, coordXYStrict_ok_int 8 _ hw0 (by
                  simp only [toU8, nodeIndexDiffByVectorXY, dirVec]; omega)⟩
    | West =>
        by_cases hx : n = 0
        · refine edgeImplStrict_isSome_wall 8 _ _ _ ?_ ?_
          · simp only [nodeIndexDiffByVectorXY, dirVec, gridMax]
            omega
          · have hbw := (hb (n % 8) (by omega) (n / 8) (by omega)).2.2.2 (by omega)
            have hcoord : (toU8 (n : Int) % 8, toU8 (n : Int) / 8) = (n % 8, n / 8) := by
              rw [toU8_nat n (by omega)]
            rw [hcoord]
            simpa [Cell.state] using hbw
        · refine edgeImplStrict_isSome_of 8 _ _ _ ?_ ?_ ?_ <;>
            first
              | (simp only [nodeIndexDiffByVectorXY, dirVec, gridMax]; omega)
              | exact ⟨_, coordXYStrict_ok_int 8 _ hw0 (by
                  simp only [toU8, nodeIndexDiffByVectorXY, dirVec]; omega)⟩
  · cases d <;>
      refine edgeImplStrict_isSome_of 16 _ _ _ ?_ ?_ ?_ <;>
      first
        | (simp only [nodeIndexDiffByVectorXY, dirVec, gridMax]; omega)
        | exact ⟨_, coordXYStrict_ok_int 16 _ hw0 (by
            simp only [toU8, nodeIndexDiffByVectorXY, dirVec]; omega)⟩
  · cases d <;>
      refine edgeImplStrict_isSome_of 32 _ _ _ ?_ ?_ ?_ <;>
      first
        | (simp only [nodeIndexDiffByVectorXY, dirVec, gridMax]; omega)
        | exact ⟨_, coordXYStrict_ok_int 32 _ hw0 (by
            simp only [toU8, nodeIndexDiffByVectorXY, dirVec]; omega)⟩

theorem coordXYStrict_ok_valid (w : Nat) (n : Nat)
    (hw : w = 8 ∨ w = 16 ∨ w = 32) (hn : n < w * w) :
    coordXYByNodeIndexStrict w (n : Int) =
      .ok (toU8 (n : Int) % w, toU8 (n : Int) / w) := by
  refine coordXYStrict_ok_int w _ ?_ ?_
  · rcases hw with rfl | rfl | rfl <;> norm_num
  · rcases hw with rfl | rfl | rfl <;> (simp only [toU8]; omega)

theorem neighborsStrict_eval (w : Nat) (m : Maze) (f : Int) (loc : Nat × Nat)
    (oN oE oS oW : Option EdgeT)
    (hloc : coordXYByNodeIndexStrict w f = .ok loc)
    (hN : edgeImplStrict w (m.cell w loc) .North f = some oN)
    (hE : edgeImplStrict w (m.cell w loc) .East f = some oE)
    (hS : edgeImplStrict w (m.cell w loc) .South f = some oS)
    (hW : edgeImplStrict w (m.cell w loc) .West f = some oW) :
    neighborsStrict w m f = some ([oN, oE, oS, oW].filterMap id) := by
  simp only [neighborsStrict, hloc, List.foldlM_cons, List.foldlM_nil,
    hN, hE, hS, hW, List.filterMap_cons, List.filterMap_nil]
  cases oN <;> cases oE <;> cases oS <;> cases oW <;>
    simp [pushOpt, Option.bind]

theorem neighborsStrict_none_top (w : Nat) (m : Maze) (f : Int) (loc : Nat × Nat)
    (hloc : coordXYByNodeIndexStrict w f = .ok loc)
    (hN : edgeImplStrict w (m.cell w loc) .North f = none) :
    neighborsStrict w m f = none := by
  simp [neighborsStrict, hloc, List.foldlM_cons, hN]

theorem dirOfVec_eq_some (v : Int × Int) (d : Direction)
    (h : dirOfVec v = some d) : v = dirVec d := by
  simp only [dirOfVec] at h
  split_ifs at h with h1 h2 h3 h4
  · injection h with h'
    subst h'
    exact h1
  · injection h with h'
    subst h'
    exact h2
  · injection h with h'
    subst h'
    exact h3
  · injection h with h'
    subst h'
    exact h4

theorem edgeStrict_isSome (w : Nat) (m : Maze) (nf nt : Nat)
    (hw : w = 8 ∨ w = 16 ∨ w = 32) (hf : nf < w * w) (ht : nt < w * w) :
    (Graph.edgeStrict w m (nf : Int) (nt : Int)).isSome = true := by
  have hw0 : 0 < w := by rcases hw with rfl | rfl | rfl <;> norm_num
  have hlocf := coordXYStrict_ok_valid w nf hw hf
  have hloct := coordXYStrict_ok_valid w nt hw ht
  have hvs : vectorXYByNodeIndexPairStrict w (nf : Int) (nt : Int) =
      some (coordSub (toU8 (nt : Int) % w, toU8 (nt : Int) / w)
        (toU8 (nf : Int) % w, toU8 (nf : Int) / w)) := by
    simp [vectorXYByNodeIndexPairStrict, hlocf, hloct]
  simp only [Graph.edgeStrict, hlocf, hvs]
  cases hdv : dirOfVec (coordSub (toU8 (nt : Int) % w, toU8 (nt : Int) / w)
      (toU8 (nf : Int) % w, toU8 (nf : Int) / w)) with
  | none => simp
  | some d =>
      have hveq := dirOfVec_eq_some _ _ hdv
      rcases hw with rfl | rfl | rfl <;> cases d <;>
        (simp only [coordSub, dirVec, Prod.mk.injEq, toU8] at hveq;
         refine edgeImplStrict_isSome_of _ _ _ _ ?_ ?_ ?_ <;>
           first
             | exact ⟨_, hlocf⟩
             | (simp only [nodeIndexDiffByVectorXY, dirVec, gridMax]; omega)
             | exact ⟨_, coordXYStrict_ok_int _ _ hw0 (by
                 simp only [toU8, nodeIndexDiffByVectorXY, dirVec]; omega)⟩)

/-! ### Claim theorems -/

/-- C1: the claim fails on the code at the compiled grid size WIDTH = 32.
Nodes 224 = (0,7) and 256 = (0,8) are unit-North adjacent (256 is exactly
224 plus the North unit-vector index difference) and the north wall of
(0,7) is clear in a fresh maze, so the claim requires `edge` to return a
cost-1 edge; but `edge(224, 256)` returns nothing, because
`coord_xy_by_node_index` casts the `i16` index to `u8` before dividing by
WIDTH, mapping node 256 to (0,0) and producing displacement (0,-7). -/
theorem c1_edge_truncation_bug :
    Graph.edge 32 (mazeNew 32 (0, 0) (0, 0)) 224 256 = none ∧
    ((mazeNew 32 (0, 0) (0, 0)).cell 32 (0, 7)).north = false ∧
    (256 : Int) = 224 + nodeIndexDiffByVectorXY 32 (dirVec .North) ∧
    coordXYByNodeIndex 32 224 = (0, 7) ∧
    coordXYByNodeIndex 32 256 = (0, 0) := by
  refine ⟨by decide, by decide, by decide, by decide, by decide⟩

/-- Maze used to refute C2 as stated: a fresh 16×16 maze whose south
boundary wall at (0,0) has been cleared through the public mutator. -/
def c2Maze : Maze :=
  (mazeNew 16 (0, 0) (0, 0)).setCellState 16 (0, 0) .South false

/-- C2 counterexample: on `c2Maze` (a legal `Maze` value reached through
`set_cell_state`), `neighbors(0)` returns three edges, the third going to
the out-of-grid index -16 with cost 15, while `edge(0, to)` for the South
cardinal destination `to = 0 - 16` returns nothing — so the returned
sequence is NOT the sequence of edges the `edge` predicate produces. -/
theorem c2_counterexample :
    Graph.neighbors 16 c2Maze 0 =
      some [⟨0, 16, 1⟩, ⟨0, 1, 1⟩, ⟨0, -16, 15⟩] ∧
    Graph.edge 16 c2Maze 0
      (0 + nodeIndexDiffByVectorXY 16 (dirVec .South)) = none := by
  refine ⟨by decide, by decide⟩

/-- C2 (amended): for WIDTH ∈ {8, 16} (builds where every node index fits
in a byte) and a maze whose perimeter walls are intact, `neighbors(from)`
returns exactly the edges `edge(from, to)` produces for the four cardinal
destinations, in the fixed order North, East, South, West, and at most 4
edges. -/
theorem c2_neighbors_match_edges (w : Nat) (m : Maze) (f : Int)
    (hw : w = 8 ∨ w = 16) (hf0 : 0 ≤ f) (hf1 : f < ((w * w : Nat) : Int))
    (hb : BoundaryWalled w m) :
    Graph.neighbors w m f =
      some ([Direction.North, .East, .South, .West].filterMap
        (fun d => Graph.edge w m f (f + nodeIndexDiffByVectorXY w (dirVec d)))) ∧
    ((Graph.neighbors w m f).getD []).length ≤ 4 := by
  obtain ⟨n, rfl⟩ : ∃ n : Nat, f = n := ⟨f.toNat, (Int.toNat_of_nonneg hf0).symm⟩
  have hn : n < w * w := by exact_mod_cast hf1
  have hev := neighbors_eval w m (n : Int) _ _ _ _ rfl rfl rfl rfl
  constructor
  · rw [hev]
    congr 1
    refine List.filterMap_congr ?_
    intro d _
    exact edgeImpl_eq_edge w m n d hw hn hb
  · rw [hev]
    simpa using List.length_filterMap_le
      (fun d => edgeImpl w (m.cell w (coordXYByNodeIndex w (n : Int))) d n)
      [Direction.North, .East, .South, .West]

/-- C2 witness: the amended statement evaluated on a fresh 8×8 maze at
node 0. -/
theorem c2_neighbors_match_edges_witness :
    ((8 : Nat) = 8 ∨ (8 : Nat) = 16) ∧ (0 : Int) ≤ 0 ∧
    (0 : Int) < ((8 * 8 : Nat) : Int) ∧
    BoundaryWalled 8 (mazeNew 8 (0, 0) (0, 0)) ∧
    (Graph.neighbors 8 (mazeNew 8 (0, 0) (0, 0)) 0 =
      some ([Direction.North, .East, .South, .West].filterMap
        (fun d => Graph.edge 8 (mazeNew 8 (0, 0) (0, 0)) 0
          (0 + nodeIndexDiffByVectorXY 8 (dirVec d)))) ∧
    ((Graph.neighbors 8 (mazeNew 8 (0, 0) (0, 0)) 0).getD []).length ≤ 4) :=
  ⟨Or.inl rfl, by decide, by decide, by decide,
    c2_neighbors_match_edges 8 (mazeNew 8 (0, 0) (0, 0)) 0 (Or.inl rfl)
      (by decide) (by decide) (by decide)⟩

/-- C3: after `set_cell_state(coord, dir, v)` on a valid coordinate the
wall flag at `coord` in direction `dir` equals `v`; when `coord` plus the
unit vector of `dir` stays in range the neighbour's flag in the inverted
direction also equals `v`; when it does not, the call still succeeds and
the only change to the whole cell array is the single named flag of the
cell at `coord` (any index `i` other than `coord`'s is untouched); and
every maze reachable from `Maze::new` or `load_from_str` via
`set_cell_state` satisfies the wall-symmetry invariant. -/
theorem c3_set_cell_state_symmetry (w : Nat) (m : Maze) (c : Nat × Nat)
    (d : Direction) (v : Bool) (i : Nat) (m2 : Maze)
    (hw : w = 8 ∨ w = 16 ∨ w = 32) (hcx : c.1 < w) (hcy : c.2 < w) :
    ((m.setCellState w c d v).cell w c).state d = v ∧
    (match coordAdd w c (dirVec d) with
     | some p => ((m.setCellState w c d v).cell w p).state d.inverted = v
     | none =>
         (m.setCellState w c d v).data i =
           (if i = c.1 + c.2 * w then (m.data i).setState d v else m.data i)) ∧
    (Reachable w m2 → WallSym w m2) := by
  have hw0 : 0 < w := by rcases hw with rfl | rfl | rfl <;> norm_num
  have hw255 : w ≤ 255 := by rcases hw with rfl | rfl | rfl <;> norm_num
  obtain ⟨cx, cy⟩ := c
  simp only at hcx hcy
  refine ⟨?_, ?_, fun hr => reachable_wallSym w m2 hw hr⟩
  · rw [cell_setCellState w m (cx, cy) (cx, cy) d v hw0 hcx hcx]
    cases hcc : coordAdd w (cx, cy) (dirVec d) with
    | none =>
        rw [if_pos rfl, state_setState, if_pos rfl]
    | some c2 =>
        have hne : ¬ ((cx, cy) : Nat × Nat) = c2 :=
          fun he => coordAdd_ne w cx cy d c2 hw255 hcx hcy hcc he.symm
        dsimp only
        rw [if_neg hne, if_pos rfl, state_setState, if_pos rfl]
  · cases hcc : coordAdd w (cx, cy) (dirVec d) with
    | some p =>
        have hpmem := coordAdd_mem w (cx, cy) (dirVec d) p hw0 hcc
        dsimp only
        rw [cell_setCellState w m (cx, cy) p d v hw0 hcx hpmem.1]
        simp only [hcc]
        simp [state_setState]
    | none =>
        dsimp only
        simp only [Maze.setCellState, hcc, updAt]

/-- C3 witness: the postconditions evaluated on a fresh 8×8 maze at (0,0)
with direction South (whose neighbour is out of range) and the invariant
instance for that same maze. -/
theorem c3_set_cell_state_symmetry_witness :
    ((8 : Nat) = 8 ∨ (8 : Nat) = 16 ∨ (8 : Nat) = 32) ∧
    (((0, 0) : Nat × Nat).1 < 8) ∧ (((0, 0) : Nat × Nat).2 < 8) ∧
    ((((mazeNew 8 (0, 0) (0, 0)).setCellState 8 (0, 0) .South true).cell 8
        (0, 0)).state .South = true ∧
     (match coordAdd 8 (0, 0) (dirVec .South) with
      | some p => (((mazeNew 8 (0, 0) (0, 0)).setCellState 8 (0, 0) .South
          true).cell 8 p).state Direction.South.inverted = true
      | none =>
          ((mazeNew 8 (0, 0) (0, 0)).setCellState 8 (0, 0) .South true).data 5 =
            (if 5 = (0 : Nat) + 0 * 8 then
              ((mazeNew 8 (0, 0) (0, 0)).data 5).setState .South true
             else (mazeNew 8 (0, 0) (0, 0)).data 5)) ∧
     (Reachable 8 (mazeNew 8 (0, 0) (0, 0)) → WallSym 8 (mazeNew 8 (0, 0) (0, 0)))) :=
  ⟨Or.inl rfl, by decide, by decide,
    c3_set_cell_state_symmetry 8 (mazeNew 8 (0, 0) (0, 0)) (0, 0) .South true 5
      (mazeNew 8 (0, 0) (0, 0)) (Or.inl rfl) (by decide) (by decide)⟩

/-- C4: the round-trip claim fails on the code at the compiled grid size
WIDTH = 32: (0,8) maps forward to index 256 = 0 + 8*32, but the index-to-
coordinate direction casts the index to `u8` first, so 256 comes back as
(0,0), not (0,8). (For WIDTH 8 and 16 every index fits in a byte and the
round-trip holds; the spec's round-trip property is the evident intent and
the `u8` cast a slip, so this is recorded as a code bug.) -/
theorem c4_roundtrip_truncation_bug :
    nodeIndexByCoordXY 32 (0, 8) = 256 ∧
    coordXYByNodeIndex 32 256 = (0, 0) ∧
    ((0, 0) : Nat × Nat) ≠ (0, 8) ∧
    (∀ x : Nat, x < 16 → ∀ y : Nat, y < 16 →
      coordXYByNodeIndex 16 (nodeIndexByCoordXY 16 (x, y)) = (x, y)) := by
  refine ⟨by decide, by decide, by decide, by decide⟩

/-- C5: the Manhattan-distance claim fails on the code at WIDTH = 32: for
the valid pair (0, 992), node 992 sits at (0,31), so the Manhattan
distance is 31; but `distance` (and `optimistic_distance`, which it
delegates to) computes 7, because the `u8` cast maps 992 to 224 = (0,7). -/
theorem c5_distance_truncation_bug :
    Graph.distance 32 0 992 = 7 ∧
    Graph.optimisticDistance 32 0 992 = 7 ∧
    (992 % 32 : Nat) = 0 ∧ (992 / 32 : Nat) = 31 ∧
    ((7 : Int) ≠ 31) := by
  refine ⟨by decide, by decide, by decide, by decide, by decide⟩

/-- C6 counterexample: a text of length 8451 satisfies the code's actual
test `len / nominalLen 32 == 1` (so width 32 is inferred and, on a
WIDTH = 32 build, the fatal condition is NOT reached) even though NO
candidate width satisfies the exact equality `len == (4w+2)(2w+1)` —
refuting the claim that the fatal condition is reached exactly when no
candidate satisfies the exact equality. -/
theorem c6_division_not_exact_counterexample :
    inferWidth 8451 = 32 ∧ loadPanics 32 8451 = false ∧
    nominalLen 32 ≠ 8451 ∧ nominalLen 16 ≠ 8451 ∧ nominalLen 9 ≠ 8451 ∧
    nominalLen 8 ≠ 8451 ∧ nominalLen 4 ≠ 8451 := by
  refine ⟨by decide, by decide, by decide, by decide, by decide, by decide,
    by decide⟩

/-- C6 (amended): the width test the code applies to each candidate is
`len / nominalLen w == 1`, i.e. `nominalLen w ≤ len < 2 * nominalLen w`
(a range, not exact equality); candidates are tried in the order
32, 16, 9, 8, 4 with the first match winning, and the fatal (panic)
condition is reached exactly when no candidate matches that range test or
the inferred width exceeds the compiled grid size. -/
theorem c6_width_inference (len W : Nat) :
    (len / nominalLen 32 = 1 ↔
      nominalLen 32 ≤ len ∧ len < 2 * nominalLen 32) ∧
    (inferWidth len = 0 ↔
      ¬(nominalLen 32 ≤ len ∧ len < 2 * nominalLen 32) ∧
      ¬(nominalLen 16 ≤ len ∧ len < 2 * nominalLen 16) ∧
      ¬(nominalLen 9 ≤ len ∧ len < 2 * nominalLen 9) ∧
      ¬(nominalLen 8 ≤ len ∧ len < 2 * nominalLen 8) ∧
      ¬(nominalLen 4 ≤ len ∧ len < 2 * nominalLen 4)) ∧
    (loadPanics W len = true ↔ (inferWidth len = 0 ∨ W < inferWidth len)) := by
  refine ⟨?_, ?_, ?_⟩
  · simp only [nominalLen]
    omega
  · simp only [inferWidth, nominalLen]
    split_ifs with h1 h2 h3 h4 h5
    · exact iff_of_false (by simp) (fun hc => hc.1 (by omega))
    · exact iff_of_false (by simp) (fun hc => hc.2.1 (by omega))
    · exact iff_of_false (by simp) (fun hc => hc.2.2.1 (by omega))
    · exact iff_of_false (by simp) (fun hc => hc.2.2.2.1 (by omega))
    · exact iff_of_false (by simp) (fun hc => hc.2.2.2.2 (by omega))
    · exact iff_of_true (by trivial)
        ⟨by omega, by omega, by omega, by omega, by omega⟩
  · simp only [loadPanics, Bool.or_eq_true, decide_eq_true_eq]
    tauto

/-- C7 counterexample: in the strict build, `NodeIndex::new(-1)` for the
16×16 grid (MAX_NODE_INDEX = 255) returns Ok(-1) instead of the
`OutOfRange` error the claim requires for every negative value — the
constructor checks only the upper bound. -/
theorem c7_negative_value_accepted :
    nodeIndexNewStrict (gridMax 16) (-1) = .ok (-1) := rfl

/-- C7 (amended): the strict `NodeIndex::new` for the grid returns Ok with
the given value exactly when the value is at most `MAX_NODE_INDEX =
WIDTH*WIDTH - 1`, and returns the `OutOfRange` error exactly when the
value exceeds it; negative values pass the check (there is no lower-bound
test). -/
theorem c7_node_index_upper_bound_only (w : Nat) (v : Int) :
    (nodeIndexNewStrict (gridMax w) v = .ok v ↔ v ≤ gridMax w) ∧
    (nodeIndexNewStrict (gridMax w) v = .error .OutOfRange ↔ gridMax w < v) := by
  unfold nodeIndexNewStrict
  split_ifs with h
  · exact ⟨iff_of_false (by simp) (by omega), iff_of_true (by simp) h⟩
  · exact ⟨iff_of_true (by simp) (by omega),
      iff_of_false (by simp) (by omega)⟩

/-- C8: immediately after `Maze::new`, each cell's four wall flags are set
exactly on its outward-facing perimeter sides: north iff the cell is in the
top row, east iff in the rightmost column, south iff in the bottom row,
west iff in the leftmost column — so every perimeter cell has its outward
flags set (corners both) and every other wall flag of every cell is
clear. -/
theorem c8_boundary_walls (w : Nat) (s g : Nat × Nat) (x y : Nat)
    (hw : w = 8 ∨ w = 16 ∨ w = 32) (hx : x < w) (hy : y < w) :
    ((mazeNew w s g).cell w (x, y)).north = decide (y = w - 1) ∧
    ((mazeNew w s g).cell w (x, y)).east = decide (x = w - 1) ∧
    ((mazeNew w s g).cell w (x, y)).south = decide (y = 0) ∧
    ((mazeNew w s g).cell w (x, y)).west = decide (x = 0) := by
  have h := mazeNewData_char w x y hw hx hy
  simp only [Maze.cell, mazeNew] at h ⊢
  rw [h]
  exact ⟨rfl, rfl, rfl, rfl⟩

/-- C8 witness: the flag characterisation evaluated at the corner (0,0) of
a fresh 8×8 maze. -/
theorem c8_boundary_walls_witness :
    ((8 : Nat) = 8 ∨ (8 : Nat) = 16 ∨ (8 : Nat) = 32) ∧ (0 : Nat) < 8 ∧
    (0 : Nat) < 8 ∧
    (((mazeNew 8 (0, 0) (0, 0)).cell 8 (0, 0)).north = decide ((0 : Nat) = 8 - 1) ∧
     ((mazeNew 8 (0, 0) (0, 0)).cell 8 (0, 0)).east = decide ((0 : Nat) = 8 - 1) ∧
     ((mazeNew 8 (0, 0) (0, 0)).cell 8 (0, 0)).south = decide ((0 : Nat) = 0) ∧
     ((mazeNew 8 (0, 0) (0, 0)).cell 8 (0, 0)).west = decide ((0 : Nat) = 0)) :=
  ⟨Or.inl rfl, by decide, by decide,
    c8_boundary_walls 8 (0, 0) (0, 0) 0 0 (Or.inl rfl) (by decide) (by decide)⟩

/-- C9: the strict and fast builds do NOT produce identical results for all
in-range inputs: on a fresh 16×16 maze, `neighbors(240)` (node (0,15), an
in-range input) panics in the strict build — `edge_impl` unwraps
`NodeIndex::new(240 + 16)` = Err(OutOfRange) before the wall check — while
the fast build returns the two-edge list [240→241, 240→224].  The spec
(section 5) requires the two modes to agree on all in-range inputs, so the
early unwrap is a code bug. -/
theorem c9_strict_fast_divergence :
    neighborsStrict 16 (mazeNew 16 (0, 0) (0, 0)) 240 = none ∧
    Graph.neighbors 16 (mazeNew 16 (0, 0) (0, 0)) 240 =
      some [⟨240, 241, 1⟩, ⟨240, 224, 1⟩] := by
  refine ⟨by decide, by decide⟩

/-- C10 counterexample: the no-panic claim fails for the strict build: on a
fresh 16×16 maze, `neighbors(255)` (node (15,15), a valid index) is `none`
(a panic: the North candidate 255 + 16 = 271 exceeds MAX_NODE_INDEX = 255
and `edge_impl` unwraps it before the wall check), while the fast build
returns the two-edge list [255→239, 255→254]. -/
theorem c10_strict_top_row_panic :
    neighborsStrict 16 (mazeNew 16 (0, 0) (0, 0)) 255 = none ∧
    Graph.neighbors 16 (mazeNew 16 (0, 0) (0, 0)) 255 =
      some [⟨255, 239, 1⟩, ⟨255, 254, 1⟩] := by
  refine ⟨by decide, by decide⟩

/-- C10 (amended): for every boundary-walled maze and valid node indices,
the fast build never panics: `neighbors` returns a list of at most 4 edges
(so the capacity-8 push never overflows) and `edge` (modelled strictly,
where a panic would be `none`) also completes; in the strict build,
`neighbors(from)` completes exactly when `from` is NOT in the top row —
for every top-row `from` the `NodeIndex::new` of the North candidate is
unwrapped before the wall check and panics. -/
theorem c10_neighbors_edge_no_panic (w : Nat) (m : Maze) (f t : Int)
    (hw : w = 8 ∨ w = 16 ∨ w = 32) (hf0 : 0 ≤ f)
    (hf1 : f < ((w * w : Nat) : Int)) (ht0 : 0 ≤ t)
    (ht1 : t < ((w * w : Nat) : Int)) (hb : BoundaryWalled w m) :
    (Graph.neighbors w m f).isSome = true ∧
    ((Graph.neighbors w m f).getD []).length ≤ 4 ∧
    (Graph.edgeStrict w m f t).isSome = true ∧
    (f < ((w * w - w : Nat) : Int) → (neighborsStrict w m f).isSome = true) ∧
    (((w * w - w : Nat) : Int) ≤ f → neighborsStrict w m f = none) := by
  obtain ⟨nf, rfl⟩ : ∃ n : Nat, f = n := ⟨f.toNat, (Int.toNat_of_nonneg hf0).symm⟩
  obtain ⟨nt, rfl⟩ : ∃ n : Nat, t = n := ⟨t.toNat, (Int.toNat_of_nonneg ht0).symm⟩
  have hnf : nf < w * w := by exact_mod_cast hf1
  have hnt : nt < w * w := by exact_mod_cast ht1
  have hev := neighbors_eval w m (nf : Int) _ _ _ _ rfl rfl rfl rfl
  refine ⟨?_, ?_, edgeStrict_isSome w m nf nt hw hnf hnt, ?_, ?_⟩
  · rw [hev]
    rfl
  · rw [hev]
    simpa using List.length_filterMap_le
      (fun d => edgeImpl w (m.cell w (coordXYByNodeIndex w (nf : Int))) d nf)
      [Direction.North, .East, .South, .West]
  · intro hlt
    have hlt' : nf < w * w - w := by exact_mod_cast hlt
    have hloc := coordXYStrict_ok_valid w nf hw hnf
    obtain ⟨oN, hoN⟩ := Option.isSome_iff_exists.mp
      (edgeImplStrict_isSome_valid w m nf .North hw hlt' hb)
    obtain ⟨oE, hoE⟩ := Option.isSome_iff_exists.mp
      (edgeImplStrict_isSome_valid w m nf .East hw hlt' hb)
    obtain ⟨oS, hoS⟩ := Option.isSome_iff_exists.mp
      (edgeImplStrict_isSome_valid w m nf .South hw hlt' hb)
    obtain ⟨oW, hoW⟩ := Option.isSome_iff_exists.mp
      (edgeImplStrict_isSome_valid w m nf .West hw hlt' hb)
    rw [neighborsStrict_eval w m nf _ oN oE oS oW hloc hoN hoE hoS hoW]
    rfl
  · intro hge
    have hge' : w * w - w ≤ nf := by exact_mod_cast hge
    exact neighborsStrict_none_top w m nf _ (coordXYStrict_ok_valid w nf hw hnf)
      (edgeImplStrict_north_top w _ nf hw hge')

/-- C10 witness: the amended statement evaluated on a fresh 8×8 maze at
nodes 0 and 1. -/
theorem c10_neighbors_edge_no_panic_witness :
    ((8 : Nat) = 8 ∨ (8 : Nat) = 16 ∨ (8 : Nat) = 32) ∧ (0 : Int) ≤ 0 ∧
    (0 : Int) < ((8 * 8 : Nat) : Int) ∧ (0 : Int) ≤ 1 ∧
    (1 : Int) < ((8 * 8 : Nat) : Int) ∧
    BoundaryWalled 8 (mazeNew 8 (0, 0) (0, 0)) ∧
    ((Graph.neighbors 8 (mazeNew 8 (0, 0) (0, 0)) 0).isSome = true ∧
     ((Graph.neighbors 8 (mazeNew 8 (0, 0) (0, 0)) 0).getD []).length ≤ 4 ∧
     (Graph.edgeStrict 8 (mazeNew 8 (0, 0) (0, 0)) 0 1).isSome = true ∧
     ((0 : Int) < ((8 * 8 - 8 : Nat) : Int) →
       (neighborsStrict 8 (mazeNew 8 (0, 0) (0, 0)) 0).isSome = true) ∧
     (((8 * 8 - 8 : Nat) : Int) ≤ 0 →
       neighborsStrict 8 (mazeNew 8 (0, 0) (0, 0)) 0 = none)) :=
  ⟨Or.inl rfl, by decide, by decide, by decide, by decide, by decide,
    c10_neighbors_edge_no_panic 8 (mazeNew 8 (0, 0) (0, 0)) 0 1 (Or.inl rfl)
      (by decide) (by decide) (by decide) (by decide) (by decide)⟩
